import Mathlib

/- Shallow embedding of the genome filtering and alignment trimming pipeline of
   src/gtdb/TreeManager.py (class TreeManager).  Python dicts are modelled as
   association lists in iteration order, Python sets of database identifiers as
   lists of naturals, floating point thresholds as rationals, and fallible code
   (uncaught IndexError / KeyError / raised GenomeDatabaseError / sys.exit) as
   Option or Except results. -/

/-- Gap characters of the alignment: `_trim_seqs` tests ch != '.' and ch != '-',
and `valid_bases` subtracts the counts of both characters. -/
def isGap (c : Char) : Bool := c == '.' || c == '-'

/-- The characters found at column i of the alignment, in genome iteration
order (sequences shorter than i contribute nothing; in the program all
sequences share one length). -/
def colAt (seqs : List (String × List Char)) (i : Nat) : List Char :=
  seqs.filterMap (fun p => p.2[i]?)

/-- `column_chars[i]` of `_trim_seqs`: the non-gap characters at column i in
genome iteration order. -/
def colChars (seqs : List (String × List Char)) (i : Nat) : List Char :=
  (colAt seqs i).filter (fun c => !isGap c)

/-- `column_count[i]` of `_trim_seqs`: the number of genomes with a non-gap
character at column i. -/
def columnCount (seqs : List (String × List Char)) (i : Nat) : Nat :=
  (colChars seqs i).length

/-- The count returned by `Counter(column_chars[i]).most_common(1)`: the
largest multiplicity of any character in the list (0 for the empty list). -/
def maxFreq (l : List Char) : Nat :=
  l.foldr (fun c acc => max (l.count c) acc) 0

/-- The occupancy test of `_trim_seqs`: `count >= min_per_taxa * len(seqs)`. -/
def keepOcc (seqs : List (String × List Char)) (minPerTaxa : ℚ) (i : Nat) : Bool :=
  decide (minPerTaxa * (seqs.length : ℚ) ≤ (columnCount seqs i : ℚ))

/-- The `ratio` variable of `_trim_seqs`: 0 when `most_common(1)` is empty,
otherwise the count of the most common non-gap character over the number of
non-gap characters. -/
def consRat (seqs : List (String × List Char)) (i : Nat) : ℚ :=
  if (colChars seqs i).isEmpty then 0
  else (maxFreq (colChars seqs i) : ℚ) / ((colChars seqs i).length : ℚ)

/-- The consensus test of `_trim_seqs`: `ratio >= consensus`. -/
def keepCons (seqs : List (String × List Char)) (consensus : ℚ) (i : Nat) : Bool :=
  decide (consensus ≤ consRat seqs i)

/-- The column loop of `_trim_seqs` over the listed column indices: returns the
mask together with `count_wrong_pa` (columns failing the occupancy test) and
`count_wrong_cons` (candidate columns failing the consensus test). -/
def maskCols (seqs : List (String × List Char)) (minPerTaxa consensus : ℚ) :
    List Nat → List Bool × Nat × Nat
  | [] => ([], 0, 0)
  | i :: rest =>
    let r := maskCols seqs minPerTaxa consensus rest
    if keepOcc seqs minPerTaxa i then
      if keepCons seqs consensus i then (true :: r.1, r.2.1, r.2.2)
      else (false :: r.1, r.2.1, r.2.2 + 1)
    else (false :: r.1, r.2.1 + 1, r.2.2)

/-- `''.join([seq[i] for i in xrange(0, len(mask)) if mask[i]])`: the characters
of the sequence at the columns the mask retains. -/
def applyMask (mask : List Bool) (s : List Char) : List Char :=
  ((List.range mask.length).filter (fun i => mask.getD i false)).filterMap
    (fun i => s[i]?)

/-- `valid_bases` of `_trim_seqs`: length minus the counts of '.' and '-'. -/
def validBases (s : List Char) : Nat :=
  s.length - s.count '.' - s.count '-'

/-- The output loop of `_trim_seqs`: masks every sequence and sends it to the
pruned dictionary when `valid_bases < len(masked_seq) * min_per_bp`, and to the
output dictionary otherwise. -/
def splitSeqs (mask : List Bool) (minPerBp : ℚ) :
    List (String × List Char) → List (String × List Char) × List (String × List Char)
  | [] => ([], [])
  | p :: rest =>
    let r := splitSeqs mask minPerBp rest
    let m := applyMask mask p.2
    if (validBases m : ℚ) < (m.length : ℚ) * minPerBp then (r.1, (p.1, m) :: r.2)
    else ((p.1, m) :: r.1, r.2)

/-- `TreeManager._trim_seqs`.  Returns `(output_seqs, pruned_seqs,
count_wrong_pa, count_wrong_cons, mask)`.  `none` models the IndexError of
`len(seqs.values()[0])` on an empty input dictionary. -/
def trimSeqs (seqs : List (String × List Char)) (minPerTaxa consensus minPerBp : ℚ) :
    Option (List (String × List Char) × List (String × List Char) × Nat × Nat × List Bool) :=
  match seqs with
  | [] => none
  | p :: _ =>
    let mc := maskCols seqs minPerTaxa consensus (List.range p.2.length)
    let sp := splitSeqs mc.1 minPerBp seqs
    some (sp.1, sp.2, mc.2.1, mc.2.2, mc.1)

/-- The rank prefixes of `biolib.taxonomy.Taxonomy.rank_prefixes`, in rank
order (domain down to species). -/
def rankPrefixes : List String :=
  ["d__", "p__", "c__", "o__", "f__", "g__", "s__"]

/-- A genome row of the `metadata_taxonomy` table: database identifier and the
seven `gtdb_<rank>` classification columns in rank order. -/
structure GenomeTax where
  id : Nat
  taxonomy : List String
  deriving DecidableEq

/-- The grouping loop of `_genomesFromTaxa`: buckets the requested taxa by the
rank named by their first three characters; `none` models the `sys.exit`
on an unrecognized prefix. -/
def groupTaxaByRank : List String → Option (List (List String))
  | [] => some (List.replicate 7 [])
  | t :: rest =>
    match rankPrefixes.findIdx? (fun s => s == t.take 3) with
    | none => none
    | some i =>
      match groupTaxaByRank rest with
      | none => none
      | some bs => some (bs.set i (t :: bs.getD i []))

/-- The rank indices whose bucket is non-empty, in rank order: exactly the rank
groups for which `_genomesFromTaxa` emits a `gtdb_<rank> IN %s` clause. -/
def nonemptyRankIdxs (bs : List (List String)) : List Nat :=
  (List.range 7).filter (fun i => !(bs.getD i []).isEmpty)

/-- One `gtdb_<rank> IN %s` clause evaluated on a genome row. -/
def rankClause (bs : List (List String)) (g : GenomeTax) (i : Nat) : Bool :=
  (bs.getD i []).contains (g.taxonomy.getD i "")

/-- `TreeManager._genomesFromTaxa` over an explicit `metadata_taxonomy` table.
The generated SQL is `WHERE id IN %s AND c1 OR c2 OR ... OR ck`, and SQL AND
binds tighter than OR, so only the first emitted rank clause is conjoined with
the id restriction.  `none` models the `sys.exit` on a bad prefix and the SQL
syntax error produced when no clause at all is emitted. -/
def genomesFromTaxa (db : List GenomeTax) (genomeIds : List Nat)
    (taxaToRetain : List String) : Option (List Nat) :=
  match groupTaxaByRank taxaToRetain with
  | none => none
  | some bs =>
    match nonemptyRankIdxs bs with
    | [] => none
    | fIdx :: restIdxs =>
      some ((db.filter (fun g =>
        (genomeIds.contains g.id && rankClause bs g fIdx) ||
          restIdxs.any (rankClause bs g))).map (fun g => g.id))

/-- The scope restriction of `_taxa_filter` before any guaranteed override:
`genome_ids.intersection(genome_ids_from_taxa)`. -/
def taxaFilterScope (db : List GenomeTax) (genomeIds : List Nat)
    (taxaToRetain : List String) : Option (List Nat) :=
  match genomesFromTaxa db genomeIds taxaToRetain with
  | none => none
  | some fromTaxa => some (genomeIds.filter (fun gid => fromTaxa.contains gid))

/-- The spec's reading of the taxa filter, stated from its words alone: a
genome matches when for every rank group holding at least one requested taxon
its classification at that rank is among the requested taxa (AND across rank
groups, OR within one).  Kept separate from the source embedding so the two
can be compared. -/
def specConjMatch (bs : List (List String)) (g : GenomeTax) : Bool :=
  (List.range 7).all (fun i =>
    (bs.getD i []).isEmpty || (bs.getD i []).contains (g.taxonomy.getD i ""))

/-- A genome row of `metadata_genes` as used by `_filterOnGenomeQuality`. -/
structure GenomeQuality where
  id : Nat
  completeness : ℚ
  contamination : ℚ
  deriving DecidableEq

/-- The WHERE clause of `_filterOnGenomeQuality`: completeness below the
completeness threshold, or contamination above the contamination threshold, or
weighted quality below the quality threshold. -/
def qualityFails (g : GenomeQuality) (qualityThreshold qualityWeight
    compThreshold contThreshold : ℚ) : Bool :=
  decide (g.completeness < compThreshold) ||
    decide (g.contamination > contThreshold) ||
      decide (g.completeness - qualityWeight * g.contamination < qualityThreshold)

/-- The quality stage of `filterGenomes` (lines 159-187): failing genomes that
are neither guaranteed nor representatives populate `final_filtered_genomes`
and are subtracted from the retained set; failing representatives that are not
guaranteed are retained with a warning.  Returns (retained ids, warned
representative ids, removed ids). -/
def qualityStage (genomes : List GenomeQuality) (guaranteedIds repIds : List Nat)
    (qualityThreshold qualityWeight compThreshold contThreshold : ℚ) :
    List Nat × List Nat × List Nat :=
  let failing := genomes.filter (fun g =>
    qualityFails g qualityThreshold qualityWeight compThreshold contThreshold)
  let removed := (failing.filter (fun g =>
    !guaranteedIds.contains g.id && !repIds.contains g.id)).map (fun g => g.id)
  let warned := (failing.filter (fun g =>
    !guaranteedIds.contains g.id && repIds.contains g.id)).map (fun g => g.id)
  ((genomes.map (fun g => g.id)).filter (fun gid => !removed.contains gid),
    warned, removed)

/-- The exclusion stage of `filterGenomes` (lines 189-203).  When the exclusion
list is non-empty and intersects the guaranteed set, a GenomeDatabaseError
naming one conflicting id is raised before the set difference is taken;
otherwise the excluded genomes are subtracted from the retained set. -/
def exclusionStage (genomesToRetain genomesToExclude guaranteedIds : List Nat) :
    Except Nat (List Nat) :=
  if genomesToExclude.isEmpty then Except.ok genomesToRetain
  else
    match guaranteedIds.filter (fun gid => genomesToExclude.contains gid) with
    | c :: _ => Except.error c
    | [] => Except.ok (genomesToRetain.filter (fun g => !genomesToExclude.contains g))

/-- One `aligned_markers` row for a genome: `len(sequence) - sequence.count('-')`
residues when the row has no multiple-hit flag. -/
def seqAA (s : List Char) : Nat := s.length - s.count '-'

/-- `total_aa` of the coverage stage: summed over the genome's aligned marker
rows `(sequence, multiple_hits)` whose multiple-hit flag is clear. -/
def totalAA : List (List Char × Bool) → Nat
  | [] => 0
  | (s, mh) :: rest => (if mh then 0 else seqAA s) + totalAA rest

/-- Outcome of the coverage stage for one genome. -/
inductive CovOutcome where
  | kept : CovOutcome
  | keptWithWarning : CovOutcome
  | removed : CovOutcome
  deriving DecidableEq

/-- The per-genome body of the coverage loop of `filterGenomes` (lines
207-253).  A guaranteed genome with non-zero `total_aa` is kept outright
(`continue`); otherwise `perc_alignment = total_aa * 100 / total_alignment_len`
is compared against `min_perc_aa`, with representatives removed only below
`min_rep_perc_aa` and retained with a warning in between. -/
def coverageDecision (isGuaranteed isRep : Bool) (aa totalAlignmentLen : Nat)
    (minPercAA minRepPercAA : ℚ) : CovOutcome :=
  if isGuaranteed = true ∧ aa ≠ 0 then CovOutcome.kept
  else
    if (aa : ℚ) * 100 / (totalAlignmentLen : ℚ) < minPercAA then
      if isRep then
        if (aa : ℚ) * 100 / (totalAlignmentLen : ℚ) < minRepPercAA then CovOutcome.removed
        else CovOutcome.keptWithWarning
      else CovOutcome.removed
    else CovOutcome.kept

/-- The coverage stage over the retained genomes, each given with its aligned
marker rows: `genomes_to_retain.difference_update(filter_on_aa)`. -/
def coverageStage (genomes : List (Nat × List (List Char × Bool)))
    (guaranteedIds repIds : List Nat) (totalAlignmentLen : Nat)
    (minPercAA minRepPercAA : ℚ) : List Nat :=
  (genomes.filter (fun g =>
    coverageDecision (guaranteedIds.contains g.1) (repIds.contains g.1)
      (totalAA g.2) totalAlignmentLen minPercAA minRepPercAA ≠ CovOutcome.removed)).map
    (fun g => g.1)

/-- An `aligned_markers` row as fetched by `writeFiles`: marker id, sequence,
multiple-hit flag, and whether an e-value is present (rows without one are
treated as missing markers). -/
structure AlignedRow where
  markerId : Nat
  sequence : List Char
  multipleHits : Bool
  hasEvalue : Bool
  deriving DecidableEq

/-- One retained genome as seen by `writeFiles`: database id, external
accession, and its aligned marker rows. -/
structure GenomeSeqInfo where
  dbId : Nat
  externalId : String
  rows : List AlignedRow
  deriving DecidableEq

/-- The marker concatenation loop of `writeFiles` (lines 424-454) over the
chosen markers `(marker id, expected size)` in display order.  The lookup
`genome_info['multiple_hits'][marker_id]` raises KeyError (modelled `none`)
when the genome has no row at all for a chosen marker; a marker with a row but
no e-value, or with the multiple-hit flag, contributes gap padding of its
expected size. -/
def buildAlignedSeq (rows : List AlignedRow) : List (Nat × Nat) → Option (List Char)
  | [] => some []
  | (m, size) :: rest =>
    match rows.find? (fun r => r.markerId == m) with
    | none => none
    | some row =>
      match buildAlignedSeq rows rest with
      | none => none
      | some tail =>
        match rows.find? (fun r => r.markerId == m && r.hasEvalue) with
        | some mrow =>
          if !row.multipleHits then some (mrow.sequence ++ tail)
          else some (List.replicate size '-' ++ tail)
        | none => some (List.replicate size '-' ++ tail)

/-- The msa dictionary built by `writeFiles`: genomes whose marker query
returns no row are skipped with a warning (`continue`), every other genome
maps its external id to its concatenated aligned sequence. -/
def buildMsa (chosen : List (Nat × Nat)) : List GenomeSeqInfo → Option (List (String × List Char))
  | [] => some []
  | g :: rest =>
    match buildMsa chosen rest with
    | none => none
    | some tail =>
      if g.rows.isEmpty then some tail
      else
        match buildAlignedSeq g.rows chosen with
        | none => none
        | some s => some ((g.externalId, s) :: tail)

/-- The alignment part of `writeFiles`: build the msa, trim it with the three
percentage thresholds divided by 100, and emit the concatenated output
`trimmed_seqs.update(pruned_seqs)` (accepted genomes followed by pruned
ones).  Returns (accepted, pruned, concatenated output). -/
def writeFilesCore (genomes : List GenomeSeqInfo) (chosen : List (Nat × Nat))
    (minPercTaxa consensus minPercAA : ℚ) :
    Option (List (String × List Char) × List (String × List Char) × List (String × List Char)) :=
  match buildMsa chosen genomes with
  | none => none
  | some msa =>
    match trimSeqs msa (minPercTaxa / 100) (consensus / 100) (minPercAA / 100) with
    | none => none
    | some (out, pr, _, _, _) => some (out, pr, out ++ pr)

/-- The retained column indices `[i for i in xrange(0, len(mask)) if mask[i]]`
of a mask, in ascending order. -/
def trueIdxs (mask : List Bool) : List Nat :=
  (List.range mask.length).filter (fun i => mask.getD i false)

/-- The three sequences of the spec's Scenario A. -/
def scenarioA : List (String × List Char) :=
  [("g1", ['A', 'C', '-', 'A', 'T']),
   ("g2", ['A', 'C', '-', 'T', 'T']),
   ("g3", ['-', 'C', 'G', 'A', 'T'])]

/-- The trimmed sequences Scenario A expects. -/
def scenarioAOut : List (String × List Char) :=
  [("g1", ['A', 'C', 'A', 'T']),
   ("g2", ['A', 'C', 'T', 'T']),
   ("g3", ['-', 'C', 'A', 'T'])]

/-- Membership of an image in a filtered map, for lists whose image under f
has no duplicates. -/
theorem mem_map_filter_iff {α β : Type} [DecidableEq β] (l : List α) (f : α → β)
    (P : α → Bool) (a : α) (ha : a ∈ l) (hnd : (l.map f).Nodup) :
    f a ∈ (l.filter P).map f ↔ P a = true := by
  constructor
  · intro h
    obtain ⟨b, hbf, hfb⟩ := List.mem_map.mp h
    obtain ⟨hbl, hPb⟩ := List.mem_filter.mp hbf
    have hba : b = a := List.inj_on_of_nodup_map hnd hbl ha hfb
    exact hba ▸ hPb
  · intro h
    exact List.mem_map.mpr ⟨a, List.mem_filter.mpr ⟨ha, h⟩, rfl⟩

/-- Evaluation helper for the occupancy test: reduce it to an inequality over
explicitly computed counts. -/
theorem keepOcc_eval_true (seqs : List (String × List Char)) (t : ℚ) (i n k : Nat)
    (hn : seqs.length = n) (hk : columnCount seqs i = k)
    (h : t * (n : ℚ) ≤ (k : ℚ)) : keepOcc seqs t i = true := by
  subst hn hk
  exact decide_eq_true h

/-- Evaluation helper for a failing occupancy test. -/
theorem keepOcc_eval_false (seqs : List (String × List Char)) (t : ℚ) (i n k : Nat)
    (hn : seqs.length = n) (hk : columnCount seqs i = k)
    (h : ¬ t * (n : ℚ) ≤ (k : ℚ)) : keepOcc seqs t i = false := by
  subst hn hk
  exact decide_eq_false h

/-- Evaluation helper for the consensus test on a column with non-gap
characters. -/
theorem keepCons_eval_true (seqs : List (String × List Char)) (c : ℚ) (i a b : Nat)
    (hne : (colChars seqs i).isEmpty = false)
    (hm : maxFreq (colChars seqs i) = a) (hl : (colChars seqs i).length = b)
    (h : c ≤ (a : ℚ) / (b : ℚ)) : keepCons seqs c i = true := by
  unfold keepCons consRat
  rw [hne, hm, hl]
  simpa using decide_eq_true h

/-- Evaluation helper for a failing consensus test on a column with non-gap
characters. -/
theorem keepCons_eval_false (seqs : List (String × List Char)) (c : ℚ) (i a b : Nat)
    (hne : (colChars seqs i).isEmpty = false)
    (hm : maxFreq (colChars seqs i) = a) (hl : (colChars seqs i).length = b)
    (h : ¬ c ≤ (a : ℚ) / (b : ℚ)) : keepCons seqs c i = false := by
  unfold keepCons consRat
  rw [hne, hm, hl]
  simpa using decide_eq_false h

/-- Assembly helper: `_trim_seqs` on a non-empty mapping from evaluated mask
and split results. -/
theorem trimSeqs_cons_eval (p : String × List Char) (rest : List (String × List Char))
    (t c b : ℚ) (mask : List Bool) (pa cc : Nat)
    (out pr : List (String × List Char))
    (hm : maskCols (p :: rest) t c (List.range p.2.length) = (mask, pa, cc))
    (hs : splitSeqs mask b (p :: rest) = (out, pr)) :
    trimSeqs (p :: rest) t c b = some (out, pr, pa, cc, mask) := by
  simp only [trimSeqs, hm, hs]

/-- With `min_per_bp = 0` no genome is pruned: the test
`valid_bases < len(masked_seq) * 0` never holds. -/
theorem splitSeqs_minbp_zero (mask : List Bool) (l : List (String × List Char)) :
    splitSeqs mask 0 l = (l.map (fun p => (p.1, applyMask mask p.2)), []) := by
  induction l with
  | nil => rfl
  | cons p rest ih =>
    unfold splitSeqs
    rw [ih]
    have hc : ¬ ((validBases (applyMask mask p.2) : ℚ) <
        ((applyMask mask p.2).length : ℚ) * 0) := by
      rw [mul_zero, not_lt]
      exact Nat.cast_nonneg _
    rw [if_neg hc]
    simp

/-- When every masked sequence is empty, the output loop accepts every genome
(the test 0 < 0 * min_per_bp fails) and prunes none. -/
theorem splitSeqs_all_empty (mask : List Bool) (minPerBp : ℚ)
    (hmask : ∀ x ∈ mask, x = false) (l : List (String × List Char)) :
    splitSeqs mask minPerBp l = (l.map (fun p => (p.1, ([] : List Char))), []) := by
  have hap : ∀ s : List Char, applyMask mask s = [] := by
    intro s
    unfold applyMask
    have hf : (List.range mask.length).filter (fun i => mask.getD i false) = [] := by
      rw [List.filter_eq_nil_iff]
      intro i hi
      have hlt : i < mask.length := List.mem_range.mp hi
      rw [List.getD_eq_getElem mask false hlt]
      simp [hmask _ (mask.getElem_mem hlt)]
    rw [hf]
    rfl
  induction l with
  | nil => rfl
  | cons p rest ih =>
    unfold splitSeqs
    rw [ih, hap p.2]
    have hc : ¬ ((validBases ([] : List Char) : ℚ) <
        (([] : List Char).length : ℚ) * minPerBp) := by
      simp [validBases]
    rw [if_neg hc]
    simp

/-- C8: on the empty genome-to-sequence mapping `_trim_seqs` does not return a
degenerate result: `seqs.values()[0]` raises IndexError, modelled by `none`. -/
theorem c8_trim_empty_input_errors (minPerTaxa consensus minPerBp : ℚ) :
    trimSeqs [] minPerTaxa consensus minPerBp = none := rfl

/-- A one-genome, one-gap-column mapping evaluated through the trimmer: the
single column fails occupancy and the genome is accepted with an empty
sequence. -/
theorem trimSeqs_gap_eval :
    trimSeqs [("g1", ['-'])] 1 1 (1/2) = some ([("g1", [])], [], 1, 0, [false]) := by
  have hocc : keepOcc [("g1", ['-'])] 1 0 = false :=
    keepOcc_eval_false _ _ _ 1 0 (by decide) (by decide) (by norm_num)
  have hmask : maskCols [("g1", ['-'])] 1 1 (List.range 1) = ([false], 1, 0) := by
    rw [show List.range 1 = [0] from rfl]
    simp [maskCols, hocc]
  have hsplit : splitSeqs [false] (1/2) [("g1", ['-'])] = ([("g1", [])], []) :=
    splitSeqs_all_empty [false] (1/2) (by simp) _
  exact trimSeqs_cons_eval ("g1", ['-']) [] 1 1 (1/2) [false] 1 0 [("g1", [])] [] hmask hsplit

/-- C2 counterexample: a single genome whose one column is masked out lands in
the accepted bucket (with an empty trimmed sequence), not in the pruned
bucket, because `valid_bases < len(masked_seq) * min_per_bp` reads 0 < 0. -/
theorem c2_counterexample :
    trimSeqs [("g1", ['-'])] 1 1 (1/2) = some ([("g1", [])], [], 1, 0, [false]) :=
  trimSeqs_gap_eval

/-- C2 (amended): whenever the computed mask retains zero columns, the trimmer
raises no division error and every genome lands in the accepted bucket with an
empty trimmed sequence; the pruned bucket is empty. -/
theorem c2_zero_columns_all_accepted (seqs out pr : List (String × List Char))
    (pa cc : Nat) (mask : List Bool) (minPerTaxa consensus minPerBp : ℚ)
    (heq : trimSeqs seqs minPerTaxa consensus minPerBp = some (out, pr, pa, cc, mask))
    (hmask : ∀ x ∈ mask, x = false) :
    out = seqs.map (fun p => (p.1, ([] : List Char))) ∧ pr = [] := by
  cases seqs with
  | nil => simp [trimSeqs] at heq
  | cons p rest =>
    simp only [trimSeqs, Option.some.injEq, Prod.mk.injEq] at heq
    obtain ⟨ho, hp, hpa, hcc, hm⟩ := heq
    rw [splitSeqs_all_empty _ minPerBp (hm ▸ hmask) (p :: rest)] at ho hp
    exact ⟨ho.symm, hp.symm⟩

/-- C2 witness: the counterexample input rechecked through the amended
theorem. -/
theorem c2_zero_columns_witness :
    ([("g1", [])] : List (String × List Char)) =
      ([("g1", ['-'])] : List (String × List Char)).map (fun p => (p.1, ([] : List Char))) ∧
    ([] : List (String × List Char)) = [] := by
  have h := c2_zero_columns_all_accepted [("g1", ['-'])] [("g1", [])] [] 1 0 [false]
    1 1 (1/2) trimSeqs_gap_eval (by simp)
  exact ⟨h.1, h.2⟩

/-- C4: a non-empty intersection of exclusion list and guaranteed set makes the
exclusion stage raise the conflict error, naming a conflicting genome, and no
new retained set is produced. -/
theorem c4_exclusion_conflict (retained exclude guaranteed : List Nat) (c0 : Nat)
    (hg : c0 ∈ guaranteed) (he : c0 ∈ exclude) :
    (∃ c, exclusionStage retained exclude guaranteed = Except.error c ∧
      c ∈ guaranteed ∧ c ∈ exclude) ∧
    ∀ s, exclusionStage retained exclude guaranteed ≠ Except.ok s := by
  have hne : exclude.isEmpty = false := by
    cases exclude with
    | nil => exact absurd he (List.not_mem_nil c0)
    | cons a l => rfl
  have hc0 : c0 ∈ guaranteed.filter (fun gid => exclude.contains gid) :=
    List.mem_filter.mpr ⟨hg, by simpa using he⟩
  cases hf : guaranteed.filter (fun gid => exclude.contains gid) with
  | nil => rw [hf] at hc0; exact absurd hc0 (List.not_mem_nil c0)
  | cons c rest =>
    have hcmem : c ∈ guaranteed.filter (fun gid => exclude.contains gid) := by
      rw [hf]; exact List.mem_cons_self c rest
    obtain ⟨hcg, hce⟩ := List.mem_filter.mp hcmem
    have hstage : exclusionStage retained exclude guaranteed = Except.error c := by
      unfold exclusionStage
      rw [if_neg (by simp [hne]), hf]
    refine ⟨⟨c, hstage, hcg, by simpa using hce⟩, ?_⟩
    intro s h
    rw [hstage] at h
    exact Except.noConfusion h

/-- C4 witness: genome 2 both guaranteed and excluded. -/
theorem c4_exclusion_conflict_witness :
    (∃ c, exclusionStage [1, 2] [2] [2] = Except.error c ∧ c ∈ [2] ∧ c ∈ [2]) ∧
    ∀ s, exclusionStage [1, 2] [2] [2] ≠ Except.ok s :=
  c4_exclusion_conflict [1, 2] [2] [2] 2 (by simp) (by simp)

/-- C5: a genome failing the quality predicate is retained with a warning
record when it is a representative and not guaranteed, and removed when it is
neither representative nor guaranteed. -/
theorem c5_quality_stage (genomes : List GenomeQuality) (guaranteedIds repIds : List Nat)
    (qt qw ct cont : ℚ) (g : GenomeQuality) (hg : g ∈ genomes)
    (hfail : qualityFails g qt qw ct cont = true) :
    ((repIds.contains g.id = true ∧ guaranteedIds.contains g.id = false) →
      g.id ∈ (qualityStage genomes guaranteedIds repIds qt qw ct cont).1 ∧
      g.id ∈ (qualityStage genomes guaranteedIds repIds qt qw ct cont).2.1) ∧
    ((repIds.contains g.id = false ∧ guaranteedIds.contains g.id = false) →
      g.id ∉ (qualityStage genomes guaranteedIds repIds qt qw ct cont).1) := by
  unfold qualityStage
  simp only []
  constructor
  · rintro ⟨hrep, hguar⟩
    constructor
    · refine List.mem_filter.mpr ⟨List.mem_map.mpr ⟨g, hg, rfl⟩, ?_⟩
      simp only [Bool.not_eq_eq_eq_not, Bool.not_true]
      rw [List.contains_eq_any_beq]
      simp only [List.any_eq_false]
      intro x hx
      obtain ⟨q, hq, hqid⟩ := List.mem_map.mp hx
      obtain ⟨_, hcond⟩ := List.mem_filter.mp hq
      intro hbeq
      have hxg : g.id = x := by simpa using hbeq
      rw [← hxg] at hqid
      rw [Bool.and_eq_true] at hcond
      have : repIds.contains q.id = false := by
        cases hrp : repIds.contains q.id with
        | false => rfl
        | true => rw [hrp] at hcond; simp at hcond
      rw [hqid, hrep] at this
      exact Bool.noConfusion this
    · refine List.mem_map.mpr ⟨g, List.mem_filter.mpr ⟨List.mem_filter.mpr ⟨hg, hfail⟩, ?_⟩, rfl⟩
      rw [hguar, hrep]
      rfl
  · rintro ⟨hrep, hguar⟩
    intro hmem
    obtain ⟨_, hnotrem⟩ := List.mem_filter.mp hmem
    have hrem : g.id ∈ (List.filter (fun q =>
        !guaranteedIds.contains q.id && !repIds.contains q.id)
        (genomes.filter (fun q => qualityFails q qt qw ct cont))).map (fun q => q.id) :=
      List.mem_map.mpr ⟨g, List.mem_filter.mpr ⟨List.mem_filter.mpr ⟨hg, hfail⟩,
        by rw [hguar, hrep]; rfl⟩, rfl⟩
    rw [Bool.not_eq_eq_eq_not, Bool.not_true] at hnotrem
    rw [List.contains_eq_any_beq] at hnotrem
    simp only [List.any_eq_false] at hnotrem
    exact hnotrem g.id hrem (by simp)

/-- C5 witness: a genome with completeness 60 and contamination 12 against the
thresholds of Scenario C fails on contamination; as a representative it is
retained and warned, as an ordinary genome it is removed. -/
theorem c5_quality_stage_witness :
    (1 ∈ (qualityStage [⟨1, 60, 12⟩] [] [1] 25 1 50 10).1 ∧
     1 ∈ (qualityStage [⟨1, 60, 12⟩] [] [1] 25 1 50 10).2.1) ∧
    1 ∉ (qualityStage [⟨1, 60, 12⟩] [] [] 25 1 50 10).1 := by
  have hfail : qualityFails ⟨1, 60, 12⟩ 25 1 50 10 = true := by
    unfold qualityFails
    norm_num
  exact ⟨(c5_quality_stage [⟨1, 60, 12⟩] [] [1] 25 1 50 10 ⟨1, 60, 12⟩ (by simp) hfail).1
      ⟨rfl, rfl⟩,
    (c5_quality_stage [⟨1, 60, 12⟩] [] [] 25 1 50 10 ⟨1, 60, 12⟩ (by simp) hfail).2
      ⟨rfl, rfl⟩⟩

/-- Membership in the coverage stage is decided by the per-genome coverage
decision, for duplicate-free genome id lists. -/
theorem mem_coverageStage (genomes : List (Nat × List (List Char × Bool)))
    (guaranteedIds repIds : List Nat) (totalLen : Nat) (mp mrp : ℚ)
    (g : Nat × List (List Char × Bool)) (hg : g ∈ genomes)
    (hnd : (genomes.map (fun x => x.1)).Nodup) :
    g.1 ∈ coverageStage genomes guaranteedIds repIds totalLen mp mrp ↔
      coverageDecision (guaranteedIds.contains g.1) (repIds.contains g.1)
        (totalAA g.2) totalLen mp mrp ≠ CovOutcome.removed := by
  unfold coverageStage
  rw [mem_map_filter_iff genomes (fun x => x.1) _ g hg hnd]
  simp

/-- C6: a retained, non-guaranteed genome whose alignment percentage is below
`min_perc_aa` is removed by the coverage stage when it is not a
representative; a representative is removed exactly when the percentage is
also below `min_rep_perc_aa`, and otherwise kept with a warning. -/
theorem c6_coverage_filter (genomes : List (Nat × List (List Char × Bool)))
    (guaranteedIds repIds : List Nat) (totalLen : Nat) (minPercAA minRepPercAA : ℚ)
    (g : Nat × List (List Char × Bool)) (hg : g ∈ genomes)
    (hnd : (genomes.map (fun x => x.1)).Nodup)
    (hguar : guaranteedIds.contains g.1 = false)
    (hperc : (totalAA g.2 : ℚ) * 100 / (totalLen : ℚ) < minPercAA) :
    (repIds.contains g.1 = false →
      g.1 ∉ coverageStage genomes guaranteedIds repIds totalLen minPercAA minRepPercAA) ∧
    (repIds.contains g.1 = true →
      ((g.1 ∉ coverageStage genomes guaranteedIds repIds totalLen minPercAA minRepPercAA ↔
        (totalAA g.2 : ℚ) * 100 / (totalLen : ℚ) < minRepPercAA) ∧
       (¬ (totalAA g.2 : ℚ) * 100 / (totalLen : ℚ) < minRepPercAA →
        coverageDecision false true (totalAA g.2) totalLen minPercAA minRepPercAA =
          CovOutcome.keptWithWarning))) := by
  have hmem := mem_coverageStage genomes guaranteedIds repIds totalLen
    minPercAA minRepPercAA g hg hnd
  constructor
  · intro hrep
    rw [hguar, hrep] at hmem
    have hdec : coverageDecision false false (totalAA g.2) totalLen minPercAA minRepPercAA =
        CovOutcome.removed := by
      simp [coverageDecision, hperc]
    intro hin
    exact (hmem.mp hin) hdec
  · intro hrep
    rw [hguar, hrep] at hmem
    constructor
    · by_cases hmrp : (totalAA g.2 : ℚ) * 100 / (totalLen : ℚ) < minRepPercAA
      · have hdec : coverageDecision false true (totalAA g.2) totalLen minPercAA minRepPercAA =
            CovOutcome.removed := by
          simp [coverageDecision, hperc, hmrp]
        rw [hdec] at hmem
        simp only [ne_eq, not_true_eq_false, iff_false] at hmem
        exact ⟨fun _ => hmrp, fun _ => hmem⟩
      · have hdec : coverageDecision false true (totalAA g.2) totalLen minPercAA minRepPercAA =
            CovOutcome.keptWithWarning := by
          simp [coverageDecision, hperc, hmrp]
        rw [hdec] at hmem
        simp only [ne_eq] at hmem
        constructor
        · intro hnot
          exact absurd (hmem.mpr (by simp)) hnot
        · intro h
          exact absurd h hmrp
    · intro hmrp
      simp [coverageDecision, hperc, hmrp]

/-- C6 witness: Scenario D, a genome with 2 of 100 aligned residues against
`min_perc_aa` 10 and `min_rep_perc_aa` 1: removed when not a representative,
kept with a warning when it is one. -/
theorem c6_coverage_filter_witness :
    1 ∉ coverageStage [(1, [(['A', 'A'], false)])] [] [] 100 10 1 ∧
    coverageDecision false true (totalAA [(['A', 'A'], false)]) 100 10 1 =
      CovOutcome.keptWithWarning := by
  have haa : totalAA [(['A', 'A'], false)] = 2 := by decide
  have hperc : (totalAA [(['A', 'A'], false)] : ℚ) * 100 / ((100 : Nat) : ℚ) < 10 := by
    rw [haa]
    norm_num
  have hnmrp : ¬ (totalAA [(['A', 'A'], false)] : ℚ) * 100 / ((100 : Nat) : ℚ) < 1 := by
    rw [haa]
    norm_num
  exact ⟨(c6_coverage_filter [(1, [(['A', 'A'], false)])] [] [] 100 10 1
      (1, [(['A', 'A'], false)]) (by simp) (by simp) rfl hperc).1 rfl,
    ((c6_coverage_filter [(1, [(['A', 'A'], false)])] [] [1] 100 10 1
      (1, [(['A', 'A'], false)]) (by simp) (by simp) rfl hperc).2 rfl).2 hnmrp⟩

/-- C7 counterexample: a guaranteed genome with zero aligned amino acids is
kept, not removed, when the coverage thresholds are zero, because
`perc_alignment = 0` is not below a zero threshold. -/
theorem c7_counterexample :
    totalAA [(['-', '-'], false)] = 0 ∧
    coverageDecision true false (totalAA [(['-', '-'], false)]) 100 0 0 =
      CovOutcome.kept := by
  have haa : totalAA [(['-', '-'], false)] = 0 := by decide
  refine ⟨haa, ?_⟩
  rw [haa]
  simp [coverageDecision]

/-- C7 (amended): a guaranteed genome with non-zero `total_aa` is kept
regardless of every coverage threshold; one with zero `total_aa` is removed
precisely when `min_perc_aa` is positive and, if the genome is also a
representative, `min_rep_perc_aa` is positive as well — with non-positive
thresholds it is retained. -/
theorem c7_guaranteed_coverage (rows : List (List Char × Bool)) (isRep : Bool)
    (totalLen : Nat) (minPercAA minRepPercAA : ℚ) (hlen : 0 < totalLen) :
    (totalAA rows ≠ 0 →
      coverageDecision true isRep (totalAA rows) totalLen minPercAA minRepPercAA =
        CovOutcome.kept) ∧
    (totalAA rows = 0 →
      (coverageDecision true isRep (totalAA rows) totalLen minPercAA minRepPercAA =
          CovOutcome.removed ↔
        (0 < minPercAA ∧ (isRep = true → 0 < minRepPercAA)))) := by
  constructor
  · intro h
    simp [coverageDecision, h]
  · intro h
    rw [h]
    have hz : ((0 : Nat) : ℚ) * 100 / (totalLen : ℚ) = 0 := by simp
    cases isRep with
    | false =>
      by_cases hmp : (0 : ℚ) < minPercAA
      · have : coverageDecision true false 0 totalLen minPercAA minRepPercAA =
            CovOutcome.removed := by
          simp [coverageDecision, hz, hmp]
        rw [this]
        simp [hmp]
      · have : coverageDecision true false 0 totalLen minPercAA minRepPercAA =
            CovOutcome.kept := by
          simp [coverageDecision, hz, hmp]
        rw [this]
        simp [hmp]
    | true =>
      by_cases hmp : (0 : ℚ) < minPercAA
      · by_cases hmrp : (0 : ℚ) < minRepPercAA
        · have : coverageDecision true true 0 totalLen minPercAA minRepPercAA =
              CovOutcome.removed := by
            simp [coverageDecision, hz, hmp, hmrp]
          rw [this]
          simp [hmp, hmrp]
        · have : coverageDecision true true 0 totalLen minPercAA minRepPercAA =
              CovOutcome.keptWithWarning := by
            simp [coverageDecision, hz, hmp, hmrp]
          rw [this]
          simp [hmp, hmrp]
      · have : coverageDecision true true 0 totalLen minPercAA minRepPercAA =
            CovOutcome.kept := by
          simp [coverageDecision, hz, hmp]
        rw [this]
        simp [hmp]

/-- C7 witness: a guaranteed genome with one aligned residue is kept at
thresholds 10 and 1; a guaranteed genome with no rows at all (zero residues)
is removed at the same positive thresholds. -/
theorem c7_guaranteed_coverage_witness :
    coverageDecision true false (totalAA [(['A'], false)]) 100 10 1 = CovOutcome.kept ∧
    coverageDecision true false (totalAA []) 100 10 1 = CovOutcome.removed := by
  constructor
  · exact (c7_guaranteed_coverage [(['A'], false)] false 100 10 1 (by norm_num)).1
      (by decide)
  · exact ((c7_guaranteed_coverage [] false 100 10 1 (by norm_num)).2 rfl).mpr
      ⟨by norm_num, by simp⟩

/-- C1 counterexample: with requested taxa in two rank groups (domain d__A and
phylum p__B), a genome classified d__A but p__C is retained by the scope
filter although it fails the phylum rank group, so the filter is not the
conjunction over rank groups the claim states. -/
theorem c1_counterexample :
    taxaFilterScope [⟨1, ["d__A", "p__C", "", "", "", "", ""]⟩] [1]
      ["d__A", "p__B"] = some [1] ∧
    groupTaxaByRank ["d__A", "p__B"] = some [["d__A"], ["p__B"], [], [], [], [], []] ∧
    specConjMatch [["d__A"], ["p__B"], [], [], [], [], []]
      ⟨1, ["d__A", "p__C", "", "", "", "", ""]⟩ = false :=
  ⟨rfl, rfl, rfl⟩

/-- C1 (amended): for a genome of the input set, the scope filter (before the
guaranteed override) retains it if and only if **some** rank group with at
least one requested taxon contains the genome's classification at that rank —
a disjunction across rank groups as well as within one. -/
theorem c1_taxa_scope_union (db : List GenomeTax) (genomeIds : List Nat)
    (taxa : List String) (bs : List (List String)) (g : GenomeTax) (scope : List Nat)
    (hnd : (db.map (fun x => x.id)).Nodup) (hg : g ∈ db) (hgid : g.id ∈ genomeIds)
    (hbs : groupTaxaByRank taxa = some bs)
    (hscope : taxaFilterScope db genomeIds taxa = some scope) :
    g.id ∈ scope ↔ ∃ i, i < 7 ∧ bs.getD i [] ≠ [] ∧
      g.taxonomy.getD i "" ∈ bs.getD i [] := by
  unfold taxaFilterScope genomesFromTaxa at hscope
  simp only [hbs] at hscope
  cases hnei : nonemptyRankIdxs bs with
  | nil =>
    simp only [hnei] at hscope
    exact Option.noConfusion hscope
  | cons fIdx restIdxs =>
    simp only [hnei, Option.some.injEq] at hscope
    subst hscope
    have hco : genomeIds.contains g.id = true := by simpa using hgid
    rw [List.mem_filter]
    simp only [hgid, true_and]
    have hmem := mem_map_filter_iff db (fun x => x.id)
      (fun g => (genomeIds.contains g.id && rankClause bs g fIdx) ||
        restIdxs.any (rankClause bs g)) g hg hnd
    constructor
    · intro h
      have hft := hmem.mp (by simpa using h)
      simp only [hco, Bool.true_and, Bool.or_eq_true, List.any_eq_true] at hft
      have hex : ∃ i, i ∈ nonemptyRankIdxs bs ∧ rankClause bs g i = true := by
        rcases hft with hf | ⟨i, hi, hci⟩
        · exact ⟨fIdx, by rw [hnei]; exact List.mem_cons_self fIdx restIdxs, hf⟩
        · exact ⟨i, by rw [hnei]; exact List.mem_cons_of_mem fIdx hi, hci⟩
      obtain ⟨i, hi, hci⟩ := hex
      obtain ⟨hir, hine⟩ := List.mem_filter.mp hi
      refine ⟨i, List.mem_range.mp hir, ?_, ?_⟩
      · intro hnil
        rw [hnil] at hine
        simp at hine
      · unfold rankClause at hci
        simpa using hci
    · rintro ⟨i, hi7, hine, himem⟩
      have hiR : i ∈ nonemptyRankIdxs bs :=
        List.mem_filter.mpr ⟨List.mem_range.mpr hi7, by
          simp only [Bool.not_eq_eq_eq_not, Bool.not_false]
          cases hbi : (bs.getD i []).isEmpty with
          | false => rfl
          | true => exact absurd (List.isEmpty_iff.mp hbi) hine⟩
      have hci : rankClause bs g i = true := by
        unfold rankClause
        simpa using himem
      have hP : ((genomeIds.contains g.id && rankClause bs g fIdx) ||
          restIdxs.any (rankClause bs g)) = true := by
        rw [hnei] at hiR
        rcases List.mem_cons.mp hiR with hieq | hirest
        · rw [hieq] at hci
          rw [hco, hci]
          rfl
        · rw [Bool.or_eq_true, List.any_eq_true]
          exact Or.inr ⟨i, hirest, hci⟩
      have := hmem.mpr hP
      simpa using this

/-- C1 witness: the counterexample genome, rechecked through the amended
disjunctive characterization (it matches the domain rank group). -/
theorem c1_taxa_scope_union_witness :
    1 ∈ ([1] : List Nat) ↔ ∃ i, i < 7 ∧
      ([["d__A"], ["p__B"], [], [], [], [], []].getD i []) ≠ [] ∧
      ((["d__A", "p__C", "", "", "", "", ""] : List String).getD i "") ∈
        [["d__A"], ["p__B"], [], [], [], [], []].getD i [] :=
  c1_taxa_scope_union [⟨1, ["d__A", "p__C", "", "", "", "", ""]⟩] [1]
    ["d__A", "p__B"] [["d__A"], ["p__B"], [], [], [], [], []]
    ⟨1, ["d__A", "p__C", "", "", "", "", ""]⟩ [1]
    (by simp) (by simp) (by simp) rfl rfl

/-- The mask computed by the column loop records, per column, the conjunction
of the occupancy and consensus tests. -/
theorem maskCols_fst (seqs : List (String × List Char)) (t c : ℚ) (idxs : List Nat) :
    (maskCols seqs t c idxs).1 =
      idxs.map (fun i => keepOcc seqs t i && keepCons seqs c i) := by
  induction idxs with
  | nil => rfl
  | cons i rest ih =>
    unfold maskCols
    by_cases ho : keepOcc seqs t i
    · by_cases hc : keepCons seqs c i <;> simp [ho, hc, ih]
    · simp [ho, ih]

/-- `count_wrong_pa` counts the columns failing the occupancy test. -/
theorem maskCols_pa (seqs : List (String × List Char)) (t c : ℚ) (idxs : List Nat) :
    (maskCols seqs t c idxs).2.1 =
      (idxs.filter (fun i => !keepOcc seqs t i)).length := by
  induction idxs with
  | nil => rfl
  | cons i rest ih =>
    unfold maskCols
    by_cases ho : keepOcc seqs t i
    · by_cases hc : keepCons seqs c i <;> simp [ho, hc, ih]
    · simp [ho, ih]

/-- `count_wrong_cons` counts the candidate columns failing the consensus
test. -/
theorem maskCols_cc (seqs : List (String × List Char)) (t c : ℚ) (idxs : List Nat) :
    (maskCols seqs t c idxs).2.2 =
      (idxs.filter (fun i => keepOcc seqs t i && !keepCons seqs c i)).length := by
  induction idxs with
  | nil => rfl
  | cons i rest ih =>
    unfold maskCols
    by_cases ho : keepOcc seqs t i
    · by_cases hc : keepCons seqs c i <;> simp [ho, hc, ih]
    · simp [ho, ih]

/-- The guarded ratio of `_trim_seqs` coincides with the plain quotient, since
an empty column has a zero quotient as well. -/
theorem consRat_eq (seqs : List (String × List Char)) (i : Nat) :
    consRat seqs i =
      (maxFreq (colChars seqs i) : ℚ) / (columnCount seqs i : ℚ) := by
  unfold consRat columnCount
  by_cases h : (colChars seqs i).isEmpty
  · rw [if_pos h]
    rw [List.isEmpty_iff.mp h]
    simp [maxFreq]
  · rw [if_neg h]

/-- Indexing the whole list through `getElem?` reproduces the list. -/
theorem filterMap_getElem_range (s : List Char) :
    (List.range s.length).filterMap (fun i => s[i]?) = s := by
  induction s with
  | nil => rfl
  | cons a tail ih =>
    rw [List.length_cons, List.range_succ_eq_map, List.filterMap_cons, List.filterMap_map]
    simp only [List.getElem?_cons_zero]
    have : (fun i => (a :: tail)[i]?) ∘ Nat.succ = fun i => tail[i]? := by
      funext i
      simp
    rw [this, ih]

/-- `filterMap` over indices below the length is a plain map through `getD`. -/
theorem filterMap_getElem_eq_map (s : List Char) (idxs : List Nat)
    (h : ∀ i ∈ idxs, i < s.length) :
    idxs.filterMap (fun i => s[i]?) = idxs.map (fun i => s.getD i 'A') := by
  induction idxs with
  | nil => rfl
  | cons i rest ih =>
    rw [List.filterMap_cons, List.map_cons]
    have hi : i < s.length := h i (List.mem_cons_self i rest)
    rw [List.getElem?_eq_getElem hi]
    rw [ih (fun j hj => h j (List.mem_cons_of_mem i hj))]
    rw [List.getD_eq_getElem s 'A' hi]

/-- The masked sequence is the subsequence at the retained indices. -/
theorem applyMask_eq_trueIdxs (mask : List Bool) (s : List Char) :
    applyMask mask s = (trueIdxs mask).filterMap (fun i => s[i]?) := rfl

/-- Retained indices are below the mask length. -/
theorem trueIdxs_lt (mask : List Bool) : ∀ i ∈ trueIdxs mask, i < mask.length := by
  intro i hi
  exact List.mem_range.mp (List.mem_filter.mp hi).1

/-- The mask holds at every retained index. -/
theorem trueIdxs_getD (mask : List Bool) :
    ∀ i ∈ trueIdxs mask, mask.getD i false = true := fun i hi =>
  (List.mem_filter.mp hi).2

/-- Length of a masked sequence: one character per retained column. -/
theorem applyMask_length (mask : List Bool) (s : List Char)
    (h : mask.length ≤ s.length) :
    (applyMask mask s).length = (trueIdxs mask).length := by
  rw [applyMask_eq_trueIdxs,
    filterMap_getElem_eq_map s (trueIdxs mask)
      (fun i hi => lt_of_lt_of_le (trueIdxs_lt mask i hi) h),
    List.length_map]

/-- A mask of trues masks nothing. -/
theorem applyMask_of_all_true (mask : List Bool) (s : List Char)
    (hlen : mask.length = s.length) (htrue : ∀ x ∈ mask, x = true) :
    applyMask mask s = s := by
  rw [applyMask_eq_trueIdxs]
  have hf : trueIdxs mask = List.range mask.length := by
    unfold trueIdxs
    apply List.filter_eq_self.mpr
    intro i hi
    have hlt : i < mask.length := List.mem_range.mp hi
    rw [List.getD_eq_getElem mask false hlt]
    exact htrue _ (mask.getElem_mem hlt)
  rw [hf, hlen]
  exact filterMap_getElem_range s

/-- Folding max is invariant under permutation. -/
theorem foldr_max_perm (l l2 : List Nat) (h : l.Perm l2) (b : Nat) :
    l.foldr max b = l2.foldr max b := by
  induction h with
  | nil => rfl
  | cons x hp ih => simp only [List.foldr_cons, ih]
  | swap x y rest =>
    simp only [List.foldr_cons]
    rw [Nat.max_left_comm]
  | trans h1 h2 ih1 ih2 => rw [ih1, ih2]

/-- The largest character multiplicity is invariant under permutation. -/
theorem maxFreq_perm (l l2 : List Char) (h : l.Perm l2) : maxFreq l = maxFreq l2 := by
  have hform : ∀ m : List Char, maxFreq m = (m.map (fun c => m.count c)).foldr max 0 := by
    intro m
    rw [List.foldr_map]
    rfl
  rw [hform l, hform l2]
  have hcong : l.map (fun c => l.count c) = l.map (fun c => l2.count c) :=
    List.map_congr_left (fun a _ => h.count_eq a)
  rw [hcong]
  exact foldr_max_perm _ _ (h.map (fun c => l2.count c)) 0

/-- Column contents are permuted when the genome rows are permuted. -/
theorem colAt_perm (l l2 : List (String × List Char)) (h : l.Perm l2) (i : Nat) :
    (colAt l i).Perm (colAt l2 i) := h.filterMap _

/-- The occupancy test only depends on the multiset of rows. -/
theorem keepOcc_perm (l l2 : List (String × List Char)) (h : l.Perm l2) (t : ℚ)
    (i : Nat) : keepOcc l t i = keepOcc l2 t i := by
  unfold keepOcc columnCount colChars
  rw [h.length_eq, ((colAt_perm l l2 h i).filter _).length_eq]

/-- The consensus test only depends on the multiset of rows. -/
theorem keepCons_perm (l l2 : List (String × List Char)) (h : l.Perm l2) (c : ℚ)
    (i : Nat) : keepCons l c i = keepCons l2 c i := by
  have hp : (colChars l i).Perm (colChars l2 i) := (colAt_perm l l2 h i).filter _
  unfold keepCons consRat
  rw [maxFreq_perm _ _ hp, hp.length_eq]
  have : (colChars l i).isEmpty = (colChars l2 i).isEmpty := by
    cases he : (colChars l i).isEmpty with
    | true =>
      have : colChars l2 i = [] := by
        have h0 := hp.length_eq
        rw [List.isEmpty_iff.mp he] at h0
        exact List.eq_nil_of_length_eq_zero h0.symm
      rw [List.isEmpty_iff.mpr this]
    | false =>
      cases he2 : (colChars l2 i).isEmpty with
      | false => rfl
      | true =>
        have : colChars l i = [] := by
          have h0 := hp.length_eq
          rw [List.isEmpty_iff.mp he2] at h0
          exact List.eq_nil_of_length_eq_zero h0
        rw [List.isEmpty_iff.mpr this] at he
        exact he.symm
  rw [this]

/-- The whole column loop only depends on the multiset of rows. -/
theorem maskCols_perm (l l2 : List (String × List Char)) (h : l.Perm l2)
    (t c : ℚ) (idxs : List Nat) :
    maskCols l t c idxs = maskCols l2 t c idxs := by
  induction idxs with
  | nil => rfl
  | cons i rest ih =>
    unfold maskCols
    rw [keepOcc_perm l l2 h t i, keepCons_perm l l2 h c i, ih]

/-- One step of the output loop. -/
theorem splitSeqs_cons (mask : List Bool) (b : ℚ) (p : String × List Char)
    (rest : List (String × List Char)) :
    splitSeqs mask b (p :: rest) =
      if (validBases (applyMask mask p.2) : ℚ) < ((applyMask mask p.2).length : ℚ) * b
      then ((splitSeqs mask b rest).1, (p.1, applyMask mask p.2) :: (splitSeqs mask b rest).2)
      else ((p.1, applyMask mask p.2) :: (splitSeqs mask b rest).1, (splitSeqs mask b rest).2) :=
  rfl

/-- The output loop distributes over appended genome lists. -/
theorem splitSeqs_append (mask : List Bool) (b : ℚ)
    (l1 l2 : List (String × List Char)) :
    splitSeqs mask b (l1 ++ l2) =
      ((splitSeqs mask b l1).1 ++ (splitSeqs mask b l2).1,
       (splitSeqs mask b l1).2 ++ (splitSeqs mask b l2).2) := by
  induction l1 with
  | nil => rfl
  | cons p rest ih =>
    rw [List.cons_append, splitSeqs_cons, splitSeqs_cons, ih]
    by_cases hc : (validBases (applyMask mask p.2) : ℚ) <
        ((applyMask mask p.2).length : ℚ) * b
    · rw [if_pos hc, if_pos hc]
      simp
    · rw [if_neg hc, if_neg hc]
      simp

/-- Accepted and pruned genomes together are a permutation of all genomes with
their masked sequences. -/
theorem splitSeqs_perm (mask : List Bool) (b : ℚ) (l : List (String × List Char)) :
    ((splitSeqs mask b l).1 ++ (splitSeqs mask b l).2).Perm
      (l.map (fun p => (p.1, applyMask mask p.2))) := by
  induction l with
  | nil => exact List.Perm.refl _
  | cons p rest ih =>
    unfold splitSeqs
    by_cases hc : (validBases (applyMask mask p.2) : ℚ) <
        ((applyMask mask p.2).length : ℚ) * b
    · rw [if_pos hc]
      simp only [List.map_cons]
      exact List.perm_middle.trans (ih.cons (p.1, applyMask mask p.2))
    · rw [if_neg hc]
      simp only [List.map_cons, List.cons_append]
      exact ih.cons (p.1, applyMask mask p.2)

/-- Every accepted genome passed the `min_per_bp` test on its own trimmed
sequence. -/
theorem splitSeqs_fst_cond (mask : List Bool) (b : ℚ) (l : List (String × List Char)) :
    ∀ p ∈ (splitSeqs mask b l).1,
      ¬ ((validBases p.2 : ℚ) < (p.2.length : ℚ) * b) := by
  induction l with
  | nil => intro p hp; exact absurd hp (List.not_mem_nil p)
  | cons q rest ih =>
    intro p hp
    unfold splitSeqs at hp
    by_cases hc : (validBases (applyMask mask q.2) : ℚ) <
        ((applyMask mask q.2).length : ℚ) * b
    · rw [if_pos hc] at hp
      exact ih p hp
    · rw [if_neg hc] at hp
      rcases List.mem_cons.mp hp with hpe | hpm
      · rw [hpe]
        exact hc
      · exact ih p hpm

/-- Every pruned genome failed the `min_per_bp` test on its own trimmed
sequence. -/
theorem splitSeqs_snd_cond (mask : List Bool) (b : ℚ) (l : List (String × List Char)) :
    ∀ p ∈ (splitSeqs mask b l).2,
      (validBases p.2 : ℚ) < (p.2.length : ℚ) * b := by
  induction l with
  | nil => intro p hp; exact absurd hp (List.not_mem_nil p)
  | cons q rest ih =>
    intro p hp
    unfold splitSeqs at hp
    by_cases hc : (validBases (applyMask mask q.2) : ℚ) <
        ((applyMask mask q.2).length : ℚ) * b
    · rw [if_pos hc] at hp
      rcases List.mem_cons.mp hp with hpe | hpm
      · rw [hpe]
        exact hc
      · exact ih p hpm
    · rw [if_neg hc] at hp
      exact ih p hp

/-- When masking does not change any listed sequence and every listed genome
passes the `min_per_bp` test, the output loop accepts everything unchanged. -/
theorem splitSeqs_id_accept (mask : List Bool) (b : ℚ) (l : List (String × List Char))
    (hid : ∀ p ∈ l, applyMask mask p.2 = p.2)
    (hcond : ∀ p ∈ l, ¬ ((validBases p.2 : ℚ) < (p.2.length : ℚ) * b)) :
    splitSeqs mask b l = (l, []) := by
  induction l with
  | nil => rfl
  | cons q rest ih =>
    unfold splitSeqs
    rw [ih (fun p hp => hid p (List.mem_cons_of_mem q hp))
      (fun p hp => hcond p (List.mem_cons_of_mem q hp))]
    rw [hid q (List.mem_cons_self q rest)]
    rw [if_neg (hcond q (List.mem_cons_self q rest))]

/-- When masking does not change any listed sequence and every listed genome
fails the `min_per_bp` test, the output loop prunes everything unchanged. -/
theorem splitSeqs_id_prune (mask : List Bool) (b : ℚ) (l : List (String × List Char))
    (hid : ∀ p ∈ l, applyMask mask p.2 = p.2)
    (hcond : ∀ p ∈ l, (validBases p.2 : ℚ) < (p.2.length : ℚ) * b) :
    splitSeqs mask b l = ([], l) := by
  induction l with
  | nil => rfl
  | cons q rest ih =>
    unfold splitSeqs
    rw [ih (fun p hp => hid p (List.mem_cons_of_mem q hp))
      (fun p hp => hcond p (List.mem_cons_of_mem q hp))]
    rw [hid q (List.mem_cons_self q rest)]
    rw [if_pos (hcond q (List.mem_cons_self q rest))]

/-- C3: the mask retains column i exactly when the occupancy quotient reaches
`min_per_taxa` and the consensus quotient reaches `consensus`; the two
counters count the columns failing occupancy and the candidate columns
failing consensus. -/
theorem c3_mask_characterization (seqs out pr : List (String × List Char))
    (pa cc : Nat) (mask : List Bool) (t c b : ℚ) (L : Nat)
    (hne : seqs ≠ []) (hlen : ∀ p ∈ seqs, p.2.length = L)
    (heq : trimSeqs seqs t c b = some (out, pr, pa, cc, mask)) :
    mask.length = L ∧
    (∀ i, i < L → (mask.getD i false = true ↔
      ((columnCount seqs i : ℚ) / (seqs.length : ℚ) ≥ t ∧
       (maxFreq (colChars seqs i) : ℚ) / (columnCount seqs i : ℚ) ≥ c))) ∧
    pa = ((List.range L).filter (fun i =>
      !decide ((columnCount seqs i : ℚ) / (seqs.length : ℚ) ≥ t))).length ∧
    cc = ((List.range L).filter (fun i =>
      decide ((columnCount seqs i : ℚ) / (seqs.length : ℚ) ≥ t) &&
      !decide ((maxFreq (colChars seqs i) : ℚ) / (columnCount seqs i : ℚ) ≥ c))).length := by
  cases seqs with
  | nil => exact absurd rfl hne
  | cons p rest =>
    have hL : p.2.length = L := hlen p (List.mem_cons_self p rest)
    simp only [trimSeqs, Option.some.injEq, Prod.mk.injEq] at heq
    obtain ⟨ho, hp2, hpa, hcc, hm⟩ := heq
    rw [hL] at hpa hcc hm
    have hpos : (0 : ℚ) < ((p :: rest).length : ℚ) := by
      have : 0 < (p :: rest).length := List.length_pos_of_ne_nil (by simp)
      exact_mod_cast this
    have hocc : ∀ i, keepOcc (p :: rest) t i =
        decide ((columnCount (p :: rest) i : ℚ) / (((p :: rest).length : ℚ)) ≥ t) := by
      intro i
      apply decide_eq_decide.mpr
      rw [ge_iff_le, le_div_iff₀ hpos]
    have hcons : ∀ i, keepCons (p :: rest) c i =
        decide ((maxFreq (colChars (p :: rest) i) : ℚ) /
          (columnCount (p :: rest) i : ℚ) ≥ c) := by
      intro i
      apply decide_eq_decide.mpr
      rw [ge_iff_le, consRat_eq]
    have hmlen : mask.length = L := by
      rw [← hm, maskCols_fst]
      simp
    have hgetD : ∀ i, i < L → mask.getD i false =
        (keepOcc (p :: rest) t i && keepCons (p :: rest) c i) := by
      intro i hi
      rw [← hm, maskCols_fst]
      have hml : ((List.range L).map
          (fun j => keepOcc (p :: rest) t j && keepCons (p :: rest) c j)).length = L := by
        simp
      rw [List.getD_eq_getElem _ false (by rw [hml]; exact hi)]
      simp
    refine ⟨hmlen, ?_, ?_, ?_⟩
    · intro i hi
      rw [hgetD i hi, Bool.and_eq_true, hocc i, hcons i]
      rw [decide_eq_true_eq, decide_eq_true_eq]
    · rw [← hpa, maskCols_pa]
      congr 1
      apply List.filter_congr
      intro i _
      rw [hocc i]
    · rw [← hcc, maskCols_cc]
      congr 1
      apply List.filter_congr
      intro i _
      rw [hocc i, hcons i]

/-- Scenario A evaluated: mask [T,T,F,T,T], one column lost to occupancy, none
to consensus, and the three trimmed sequences (all accepted at
`min_per_bp = 0`). -/
theorem trimSeqs_scenarioA_eval :
    trimSeqs scenarioA (6/10) (1/2) 0 =
      some (scenarioAOut, [], 1, 0, [true, true, false, true, true]) := by
  have h0 : keepOcc scenarioA (6/10) 0 = true :=
    keepOcc_eval_true _ _ _ 3 2 rfl (by decide) (by norm_num)
  have h1 : keepOcc scenarioA (6/10) 1 = true :=
    keepOcc_eval_true _ _ _ 3 3 rfl (by decide) (by norm_num)
  have h2 : keepOcc scenarioA (6/10) 2 = false :=
    keepOcc_eval_false _ _ _ 3 1 rfl (by decide) (by norm_num)
  have h3 : keepOcc scenarioA (6/10) 3 = true :=
    keepOcc_eval_true _ _ _ 3 3 rfl (by decide) (by norm_num)
  have h4 : keepOcc scenarioA (6/10) 4 = true :=
    keepOcc_eval_true _ _ _ 3 3 rfl (by decide) (by norm_num)
  have hc0 : keepCons scenarioA (1/2) 0 = true :=
    keepCons_eval_true _ _ _ 2 2 (by decide) (by decide) (by decide) (by norm_num)
  have hc1 : keepCons scenarioA (1/2) 1 = true :=
    keepCons_eval_true _ _ _ 3 3 (by decide) (by decide) (by decide) (by norm_num)
  have hc3 : keepCons scenarioA (1/2) 3 = true :=
    keepCons_eval_true _ _ _ 2 3 (by decide) (by decide) (by decide) (by norm_num)
  have hc4 : keepCons scenarioA (1/2) 4 = true :=
    keepCons_eval_true _ _ _ 3 3 (by decide) (by decide) (by decide) (by norm_num)
  have hmask : maskCols scenarioA (6/10) (1/2) [0, 1, 2, 3, 4] =
      ([true, true, false, true, true], 1, 0) := by
    simp only [maskCols, h0, h1, h2, h3, h4, hc0, hc1, hc3, hc4]
    simp
  have hsplit : splitSeqs [true, true, false, true, true] 0 scenarioA =
      (scenarioAOut, []) := by
    rw [splitSeqs_minbp_zero]
    have : scenarioA.map
        (fun p => (p.1, applyMask [true, true, false, true, true] p.2)) =
        scenarioAOut := by decide
    rw [this]
  exact trimSeqs_cons_eval ("g1", ['A', 'C', '-', 'A', 'T'])
    [("g2", ['A', 'C', '-', 'T', 'T']), ("g3", ['-', 'C', 'G', 'A', 'T'])]
    (6/10) (1/2) 0 [true, true, false, true, true] 1 0 scenarioAOut [] hmask hsplit

/-- C3 witness: Scenario A, with the characterization instantiated at the
masked-out column 2 (occupancy 1 of 3 misses the 0.6 bound). -/
theorem c3_mask_characterization_witness :
    trimSeqs scenarioA (6/10) (1/2) 0 =
      some (scenarioAOut, [], 1, 0, [true, true, false, true, true]) ∧
    (([true, true, false, true, true] : List Bool).getD 2 false = true ↔
      ((columnCount scenarioA 2 : ℚ) / (scenarioA.length : ℚ) ≥ 6/10 ∧
       (maxFreq (colChars scenarioA 2) : ℚ) / (columnCount scenarioA 2 : ℚ) ≥ 1/2)) :=
  ⟨trimSeqs_scenarioA_eval,
    (c3_mask_characterization scenarioA scenarioAOut [] 1 0
      [true, true, false, true, true] (6/10) (1/2) 0 5 (by decide) (by decide)
      trimSeqs_scenarioA_eval).2.1 2 (by norm_num)⟩

/-- Indexing a masked sequence at position j reads the original sequence at
the j-th retained column. -/
theorem applyMask_getElem (mask : List Bool) (s : List Char)
    (hs : mask.length ≤ s.length) (j : Nat) (hj : j < (trueIdxs mask).length) :
    (applyMask mask s)[j]? = s[(trueIdxs mask).getD j 0]? := by
  rw [applyMask_eq_trueIdxs,
    filterMap_getElem_eq_map s _ (fun i hi => lt_of_lt_of_le (trueIdxs_lt mask i hi) hs)]
  rw [List.getElem?_map, List.getElem?_eq_getElem hj]
  have htj_mem : (trueIdxs mask)[j] ∈ trueIdxs mask := List.getElem_mem hj
  have htj : (trueIdxs mask)[j] < s.length :=
    lt_of_lt_of_le (trueIdxs_lt mask _ htj_mem) hs
  rw [List.getD_eq_getElem _ 0 hj, List.getElem?_eq_getElem htj]
  simp only [Option.map_some']
  rw [List.getD_eq_getElem s 'A' htj]

/-- Column j of the trimmed alignment is column `trueIdxs[j]` of the original
alignment, over the same genome population. -/
theorem colAt_map_applyMask (l : List (String × List Char)) (mask : List Bool)
    (L : Nat) (hml : mask.length = L) (hlen : ∀ p ∈ l, p.2.length = L) (j : Nat)
    (hj : j < (trueIdxs mask).length) :
    colAt (l.map (fun p => (p.1, applyMask mask p.2))) j =
      colAt l ((trueIdxs mask).getD j 0) := by
  unfold colAt
  rw [List.filterMap_map]
  apply List.filterMap_congr
  intro p hp
  have hs : mask.length ≤ p.2.length := by
    rw [hml, hlen p hp]
  exact applyMask_getElem mask p.2 hs j hj

/-- C9: re-applying `_trim_seqs` with the same thresholds to the union of its
accepted and pruned outputs masks out nothing further (both failure counters
are zero and the new mask is all ones) and returns every sequence, and both
buckets, unchanged. -/
theorem c9_trim_idempotent (seqs out pr : List (String × List Char)) (pa cc : Nat)
    (mask : List Bool) (t c b : ℚ) (L : Nat)
    (hne : seqs ≠ []) (hlen : ∀ p ∈ seqs, p.2.length = L)
    (heq : trimSeqs seqs t c b = some (out, pr, pa, cc, mask)) :
    ∃ mask2, trimSeqs (out ++ pr) t c b = some (out, pr, 0, 0, mask2) ∧
      ∀ x ∈ mask2, x = true := by
  cases seqs with
  | nil => exact absurd rfl hne
  | cons p rest =>
    have hL : p.2.length = L := hlen p (List.mem_cons_self p rest)
    simp only [trimSeqs, Option.some.injEq, Prod.mk.injEq] at heq
    obtain ⟨ho, hp2, hpa, hcc, hm⟩ := heq
    rw [hL] at ho hp2 hm
    rw [hm] at ho hp2
    have hmlen : mask.length = L := by
      rw [← hm, maskCols_fst]
      simp
    have hperm : (out ++ pr).Perm
        ((p :: rest).map (fun q => (q.1, applyMask mask q.2))) := by
      rw [← ho, ← hp2]
      exact splitSeqs_perm mask b (p :: rest)
    have hout_cond : ∀ q ∈ out, ¬ ((validBases q.2 : ℚ) < (q.2.length : ℚ) * b) := by
      rw [← ho]
      exact splitSeqs_fst_cond mask b (p :: rest)
    have hpr_cond : ∀ q ∈ pr, (validBases q.2 : ℚ) < (q.2.length : ℚ) * b := by
      rw [← hp2]
      exact splitSeqs_snd_cond mask b (p :: rest)
    have htrimlen : ∀ q ∈ (p :: rest).map (fun q => (q.1, applyMask mask q.2)),
        q.2.length = (trueIdxs mask).length := by
      intro q hq
      obtain ⟨q0, hq0, hq0e⟩ := List.mem_map.mp hq
      rw [← hq0e]
      exact applyMask_length mask q0.2 (le_of_eq (by rw [hmlen, hlen q0 hq0]))
    have hulen : ∀ q ∈ out ++ pr, q.2.length = (trueIdxs mask).length :=
      fun q hq => htrimlen q (hperm.subset hq)
    have hmask_at : ∀ i ∈ trueIdxs mask,
        keepOcc (p :: rest) t i = true ∧ keepCons (p :: rest) c i = true := by
      intro i hi
      have hval := trueIdxs_getD mask i hi
      have hilt : i < L := by
        rw [← hmlen]
        exact trueIdxs_lt mask i hi
      rw [← hm, maskCols_fst] at hval
      have hml2 : ((List.range L).map
          (fun j => keepOcc (p :: rest) t j && keepCons (p :: rest) c j)).length = L := by
        simp
      rw [List.getD_eq_getElem _ false (by rw [hml2]; exact hilt)] at hval
      simp only [List.getElem_map, List.getElem_range, Bool.and_eq_true] at hval
      exact hval
    have hkeep : ∀ j, j < (trueIdxs mask).length →
        keepOcc (out ++ pr) t j = true ∧ keepCons (out ++ pr) c j = true := by
      intro j hj
      have htj_mem : (trueIdxs mask).getD j 0 ∈ trueIdxs mask := by
        rw [List.getD_eq_getElem _ 0 hj]
        exact List.getElem_mem hj
      have hcols : colAt ((p :: rest).map (fun q => (q.1, applyMask mask q.2))) j =
          colAt (p :: rest) ((trueIdxs mask).getD j 0) :=
        colAt_map_applyMask (p :: rest) mask L hmlen hlen j hj
      have hchars : colChars ((p :: rest).map (fun q => (q.1, applyMask mask q.2))) j =
          colChars (p :: rest) ((trueIdxs mask).getD j 0) := by
        unfold colChars
        rw [hcols]
      have hcount : columnCount ((p :: rest).map (fun q => (q.1, applyMask mask q.2))) j =
          columnCount (p :: rest) ((trueIdxs mask).getD j 0) := by
        unfold columnCount
        rw [hchars]
      have hnlen : ((p :: rest).map (fun q => (q.1, applyMask mask q.2))).length =
          (p :: rest).length := List.length_map _ _
      constructor
      · rw [keepOcc_perm _ _ hperm t j]
        unfold keepOcc
        rw [hcount, hnlen]
        exact (hmask_at _ htj_mem).1
      · rw [keepCons_perm _ _ hperm c j]
        unfold keepCons consRat
        rw [hchars]
        exact (hmask_at _ htj_mem).2
    set m2 : List Bool := (List.range (trueIdxs mask).length).map
      (fun j => keepOcc (out ++ pr) t j && keepCons (out ++ pr) c j) with hm2def
    have hm2true : ∀ x ∈ m2, x = true := by
      intro x hx
      obtain ⟨j, hj, hje⟩ := List.mem_map.mp hx
      obtain ⟨hkO, hkC⟩ := hkeep j (List.mem_range.mp hj)
      rw [← hje, hkO, hkC]
      rfl
    have hm2len : m2.length = (trueIdxs mask).length := by
      rw [hm2def]
      simp
    have hmc2 : maskCols (out ++ pr) t c (List.range (trueIdxs mask).length) =
        (m2, 0, 0) := by
      have h1 := maskCols_fst (out ++ pr) t c (List.range (trueIdxs mask).length)
      have h2 : (maskCols (out ++ pr) t c (List.range (trueIdxs mask).length)).2.1 = 0 := by
        rw [maskCols_pa]
        rw [List.filter_eq_nil_iff.mpr ?_]
        · rfl
        intro i hi
        rw [(hkeep i (List.mem_range.mp hi)).1]
        simp
      have h3 : (maskCols (out ++ pr) t c (List.range (trueIdxs mask).length)).2.2 = 0 := by
        rw [maskCols_cc]
        rw [List.filter_eq_nil_iff.mpr ?_]
        · rfl
        intro i hi
        rw [(hkeep i (List.mem_range.mp hi)).1, (hkeep i (List.mem_range.mp hi)).2]
        simp
      have hsplitup : maskCols (out ++ pr) t c (List.range (trueIdxs mask).length) =
          ((maskCols (out ++ pr) t c (List.range (trueIdxs mask).length)).1,
           (maskCols (out ++ pr) t c (List.range (trueIdxs mask).length)).2.1,
           (maskCols (out ++ pr) t c (List.range (trueIdxs mask).length)).2.2) := rfl
      rw [hsplitup, h1, h2, h3]
    have happly : ∀ q ∈ out ++ pr, applyMask m2 q.2 = q.2 := by
      intro q hq
      exact applyMask_of_all_true m2 q.2 (by rw [hm2len, hulen q hq]) hm2true
    have hsplit2 : splitSeqs m2 b (out ++ pr) = (out, pr) := by
      rw [splitSeqs_append]
      rw [splitSeqs_id_accept m2 b out
        (fun q hq => happly q (List.mem_append_left pr hq)) hout_cond]
      rw [splitSeqs_id_prune m2 b pr
        (fun q hq => happly q (List.mem_append_right out hq)) hpr_cond]
      simp
    cases hu : out ++ pr with
    | nil =>
      exfalso
      have hlen0 := hperm.length_eq
      rw [hu] at hlen0
      simp at hlen0
    | cons q0 qrest =>
      have hq0len : q0.2.length = (trueIdxs mask).length :=
        hulen q0 (by rw [hu]; exact List.mem_cons_self q0 qrest)
      refine ⟨m2, ?_, hm2true⟩
      apply trimSeqs_cons_eval q0 qrest t c b m2 0 0 out pr
      · rw [hq0len, ← hu]
        exact hmc2
      · rw [← hu]
        exact hsplit2

/-- C9 witness: Scenario A re-trimmed; the union of its buckets passes through
unchanged with an all-ones mask. -/
theorem c9_trim_idempotent_witness :
    ∃ mask2, trimSeqs (scenarioAOut ++ []) (6/10) (1/2) 0 =
      some (scenarioAOut, [], 0, 0, mask2) ∧ ∀ x ∈ mask2, x = true :=
  c9_trim_idempotent scenarioA scenarioAOut [] 1 0 [true, true, false, true, true]
    (6/10) (1/2) 0 5 (by decide) (by decide) trimSeqs_scenarioA_eval

/-- When a genome has a row for every chosen marker, the concatenation loop
does not raise KeyError. -/
theorem buildAlignedSeq_some (rows : List AlignedRow) (chosen : List (Nat × Nat))
    (hcov : ∀ ms ∈ chosen, (rows.find? (fun r => r.markerId == ms.1)).isSome) :
    ∃ s, buildAlignedSeq rows chosen = some s := by
  induction chosen with
  | nil => exact ⟨[], rfl⟩
  | cons ms rest ih =>
    obtain ⟨m, size⟩ := ms
    obtain ⟨s, hs⟩ := ih (fun q hq => hcov q (List.mem_cons_of_mem _ hq))
    have hfind := hcov (m, size) (List.mem_cons_self _ rest)
    cases hf : rows.find? (fun r => r.markerId == m) with
    | none =>
      rw [hf] at hfind
      simp at hfind
    | some row =>
      cases hf2 : rows.find? (fun r => r.markerId == m && r.hasEvalue) with
      | none =>
        refine ⟨List.replicate size '-' ++ s, ?_⟩
        simp only [buildAlignedSeq, hf, hs, hf2]
      | some mrow =>
        refine ⟨if !row.multipleHits then mrow.sequence ++ s
          else List.replicate size '-' ++ s, ?_⟩
        simp only [buildAlignedSeq, hf, hs, hf2]
        by_cases hmh : row.multipleHits = true
        · simp [hmh]
        · simp [hmh]

/-- The msa dictionary exists under full marker coverage, and its keys are the
external ids of the retained genomes that have at least one row, in order. -/
theorem buildMsa_some (chosen : List (Nat × Nat)) (genomes : List GenomeSeqInfo)
    (hcov : ∀ g ∈ genomes, g.rows ≠ [] →
      ∀ ms ∈ chosen, (g.rows.find? (fun r => r.markerId == ms.1)).isSome) :
    ∃ msa, buildMsa chosen genomes = some msa ∧
      msa.map (fun q => q.1) =
        (genomes.filter (fun g => !g.rows.isEmpty)).map (fun g => g.externalId) := by
  induction genomes with
  | nil => exact ⟨[], rfl, rfl⟩
  | cons g rest ih =>
    obtain ⟨msa, hmsa, hnames⟩ := ih (fun q hq => hcov q (List.mem_cons_of_mem _ hq))
    cases hge : g.rows.isEmpty with
    | true =>
      refine ⟨msa, ?_, ?_⟩
      · simp only [buildMsa, hmsa]
        rw [if_pos hge]
      · rw [List.filter_cons, hnames]
        rw [hge]
        simp
    | false =>
      have hgne : g.rows ≠ [] := by
        intro h0
        rw [h0] at hge
        exact Bool.noConfusion hge
      obtain ⟨s, hs⟩ := buildAlignedSeq_some g.rows chosen
        (hcov g (List.mem_cons_self g rest) hgne)
      refine ⟨(g.externalId, s) :: msa, ?_, ?_⟩
      · simp only [buildMsa, hmsa, hs]
        rw [if_neg (by rw [hge]; exact Bool.noConfusion)]
      · rw [List.map_cons, hnames, List.filter_cons, hge]
        simp

/-- C10 counterexample: a retained genome with one aligned-marker row, against
a chosen marker set of two markers, crashes the concatenation loop (KeyError
on the marker without a row), so no output partition is produced at all. -/
theorem c10_counterexample :
    writeFilesCore [⟨1, "g1", [⟨0, ['A'], false, true⟩]⟩] [(0, 1), (1, 3)]
      50 25 50 = none := rfl

/-- C10 (amended): when every retained genome either has no rows (and is then
omitted from the msa) or has a row for every chosen marker, at least one
genome has rows, and external ids are distinct, the accepted and pruned
buckets partition the genomes with rows: each appears exactly once in the
concatenated output and in exactly one bucket, and row-less genomes appear
nowhere. -/
theorem c10_partition (genomes : List GenomeSeqInfo) (chosen : List (Nat × Nat))
    (mt cs ma : ℚ)
    (hcov : ∀ g ∈ genomes, g.rows ≠ [] →
      ∀ ms ∈ chosen, (g.rows.find? (fun r => r.markerId == ms.1)).isSome)
    (hne : ∃ g ∈ genomes, g.rows ≠ [])
    (hnd : (genomes.map (fun g => g.externalId)).Nodup) :
    ∃ out pr concat, writeFilesCore genomes chosen mt cs ma = some (out, pr, concat) ∧
      concat = out ++ pr ∧
      (∀ g ∈ genomes, g.rows ≠ [] →
        (concat.map (fun q => q.1)).count g.externalId = 1 ∧
        (g.externalId ∈ out.map (fun q => q.1) ↔
          g.externalId ∉ pr.map (fun q => q.1))) ∧
      (∀ g ∈ genomes, g.rows = [] →
        g.externalId ∉ concat.map (fun q => q.1)) := by
  obtain ⟨msa, hmsa, hnames⟩ := buildMsa_some chosen genomes hcov
  have hmsane : msa ≠ [] := by
    obtain ⟨g, hg, hgr⟩ := hne
    intro h0
    have hgeb : g.rows.isEmpty = false := by
      cases hb : g.rows.isEmpty with
      | false => rfl
      | true => exact absurd (List.isEmpty_iff.mp hb) hgr
    have hmem : g.externalId ∈
        (genomes.filter (fun g => !g.rows.isEmpty)).map (fun g => g.externalId) :=
      List.mem_map.mpr ⟨g, List.mem_filter.mpr ⟨hg, by rw [hgeb]; rfl⟩, rfl⟩
    rw [← hnames, h0] at hmem
    exact absurd hmem (List.not_mem_nil _)
  cases hmu : msa with
  | nil => exact absurd hmu hmsane
  | cons m0 mrest =>
    have htr : trimSeqs msa (mt/100) (cs/100) (ma/100) =
        some ((splitSeqs (maskCols msa (mt/100) (cs/100)
            (List.range m0.2.length)).1 (ma/100) msa).1,
          (splitSeqs (maskCols msa (mt/100) (cs/100)
            (List.range m0.2.length)).1 (ma/100) msa).2,
          (maskCols msa (mt/100) (cs/100) (List.range m0.2.length)).2.1,
          (maskCols msa (mt/100) (cs/100) (List.range m0.2.length)).2.2,
          (maskCols msa (mt/100) (cs/100) (List.range m0.2.length)).1) := by
      rw [hmu]
      rfl
    refine ⟨(splitSeqs (maskCols msa (mt/100) (cs/100)
        (List.range m0.2.length)).1 (ma/100) msa).1,
      (splitSeqs (maskCols msa (mt/100) (cs/100)
        (List.range m0.2.length)).1 (ma/100) msa).2,
      (splitSeqs (maskCols msa (mt/100) (cs/100)
        (List.range m0.2.length)).1 (ma/100) msa).1 ++
      (splitSeqs (maskCols msa (mt/100) (cs/100)
        (List.range m0.2.length)).1 (ma/100) msa).2, ?_, rfl, ?_, ?_⟩
    · simp only [writeFilesCore, hmsa, htr]
    all_goals {
      have hperm : ((splitSeqs (maskCols msa (mt/100) (cs/100)
            (List.range m0.2.length)).1 (ma/100) msa).1 ++
          (splitSeqs (maskCols msa (mt/100) (cs/100)
            (List.range m0.2.length)).1 (ma/100) msa).2).Perm
          (msa.map (fun q => (q.1, applyMask (maskCols msa (mt/100) (cs/100)
            (List.range m0.2.length)).1 q.2))) :=
        splitSeqs_perm _ (ma/100) msa
      have hfsts : (((splitSeqs (maskCols msa (mt/100) (cs/100)
            (List.range m0.2.length)).1 (ma/100) msa).1 ++
          (splitSeqs (maskCols msa (mt/100) (cs/100)
            (List.range m0.2.length)).1 (ma/100) msa).2).map (fun q => q.1)).Perm
          (msa.map (fun q => q.1)) := by
        have h1 := hperm.map (fun q => q.1)
        rw [List.map_map] at h1
        exact h1
      have hndmsa : (msa.map (fun q => q.1)).Nodup := by
        rw [hnames]
        exact ((List.filter_sublist genomes).map (fun g => g.externalId)).nodup hnd
      have hndu := (hfsts.nodup_iff).mpr hndmsa
      first
      | -- genomes with rows: counted once and in exactly one bucket
        (intro g hg hgr
         have hgeb : g.rows.isEmpty = false := by
           cases hb : g.rows.isEmpty with
           | false => rfl
           | true => exact absurd (List.isEmpty_iff.mp hb) hgr
         have hmem : g.externalId ∈ msa.map (fun q => q.1) := by
           rw [hnames]
           exact List.mem_map.mpr ⟨g, List.mem_filter.mpr ⟨hg, by rw [hgeb]; rfl⟩, rfl⟩
         have hmemu := (hfsts.mem_iff).mpr hmem
         constructor
         · exact List.count_eq_one_of_mem hndu hmemu
         · rw [List.map_append] at hmemu hndu
           obtain ⟨hn1, hn2, hdisj⟩ := List.nodup_append.mp hndu
           constructor
           · intro hin hpin
             exact hdisj hin hpin
           · intro hnotp
             rcases List.mem_append.mp hmemu with hin | hpin
             · exact hin
             · exact absurd hpin hnotp)
      | -- genomes with no rows: absent from the concatenated output
        (intro g hg hgr
         intro hmemu
         have hmem : g.externalId ∈ msa.map (fun q => q.1) :=
           (hfsts.mem_iff).mp hmemu
         rw [hnames] at hmem
         obtain ⟨g2, hg2f, hg2e⟩ := List.mem_map.mp hmem
         obtain ⟨hg2, hg2cond⟩ := List.mem_filter.mp hg2f
         have hgg : g2 = g := List.inj_on_of_nodup_map hnd hg2 hg hg2e
         rw [hgg, hgr] at hg2cond
         simp at hg2cond)
    }

/-- C10 witness: one genome with one row for the single chosen marker. -/
theorem c10_partition_witness :
    ∃ out pr concat,
      writeFilesCore [⟨1, "g1", [⟨0, ['A'], false, true⟩]⟩] [(0, 1)] 50 25 50 =
        some (out, pr, concat) ∧
      concat = out ++ pr ∧
      (∀ g ∈ [(⟨1, "g1", [⟨0, ['A'], false, true⟩]⟩ : GenomeSeqInfo)], g.rows ≠ [] →
        (concat.map (fun q => q.1)).count g.externalId = 1 ∧
        (g.externalId ∈ out.map (fun q => q.1) ↔
          g.externalId ∉ pr.map (fun q => q.1))) ∧
      (∀ g ∈ [(⟨1, "g1", [⟨0, ['A'], false, true⟩]⟩ : GenomeSeqInfo)], g.rows = [] →
        g.externalId ∉ concat.map (fun q => q.1)) :=
  c10_partition [⟨1, "g1", [⟨0, ['A'], false, true⟩]⟩] [(0, 1)] 50 25 50
    (by decide) (by decide) (by decide)
